import Mathlib

set_option linter.dupNamespace false

/-! conf: error rendering, string utilities, zero detection and options

A shallow embedding of `error.go`, `util.go` and `option.go` of the `conf`
package, together with the parts of the Go standard library these files call
(`strings`, `sort`, `fmt`, `errors`, `reflect`, `os`), and theorems about them.
The environment source and the order in which the sources apply are not in
these files; they are modelled from the specification.

Go strings are byte sequences: a string is a list of byte values. A call that
panics has the result `none`.
-/

namespace Conf

/-! ## Strings -/

/-- A Go string: its sequence of bytes. -/
abbrev GoString := List Nat

/-- The bytes (UTF-8) of a string literal of the source. -/
def str (s : String) : GoString :=
  s.toList.flatMap (fun c => (String.utf8EncodeChar c).map UInt8.toNat)

/-- Go's `<` on strings: byte-wise comparison, a proper prefix being smaller. -/
def strLess : GoString → GoString → Bool
  | [], [] => false
  | [], _ :: _ => true
  | _ :: _, [] => false
  | a :: as, b :: bs =>
    if a < b then true else if b < a then false else strLess as bs

/-- The relation `a <= b` on strings, that is `!(b < a)`. -/
def strLe (a b : GoString) : Prop := strLess b a = false

instance strLe.decidableRel : DecidableRel strLe :=
  fun a b => inferInstanceAs (Decidable (strLess b a = false))

/-- `strings.HasPrefix`. -/
def HasPrefix (s pre : GoString) : Bool :=
  decide (s.length ≥ pre.length) && s.take pre.length == pre

/-- `strings.HasSuffix`. -/
def HasSuffix (s suffix : GoString) : Bool :=
  decide (s.length ≥ suffix.length) && s.drop (s.length - suffix.length) == suffix

/-- `strings.TrimPrefix`: `s` without the leading `pre`, or `s` itself. -/
def TrimPrefix (s pre : GoString) : GoString :=
  if HasPrefix s pre then s.drop pre.length else s

/-- `strings.TrimSuffix`: `s` without the trailing `suffix`, or `s` itself. -/
def TrimSuffix (s suffix : GoString) : GoString :=
  if HasSuffix s suffix then s.take (s.length - suffix.length) else s

/-- `strings.Join`: nothing for no element, otherwise the first element
followed by separator and element for each further one. -/
def Join : List GoString → GoString → GoString
  | [], _ => []
  | e :: es, sep => es.foldl (fun b s => b ++ sep ++ s) e

/-- `strings.Split(s, sep)` for a one-byte separator: the substrings between
the occurrences of `sep`; one more element than there are occurrences. -/
def Split : GoString → Nat → List GoString
  | [], _ => [[]]
  | c :: cs, sep =>
    if c = sep then [] :: Split cs sep
    else (c :: (Split cs sep).headD []) :: (Split cs sep).tail

/-- `strings.Count(s, sep)` for a one-byte separator. -/
def Count (s : GoString) (sep : Nat) : Nat := s.count sep

/-- `sort.Strings`: the list in increasing order. The library sorts in place
with an unstable algorithm; equal strings are indistinguishable, so the result
is the one sorted arrangement, computed here by insertion. -/
def sort_Strings (xs : List GoString) : List GoString :=
  xs.insertionSort strLe

/-- The verb `%d` of `fmt.Sprintf` for a non-negative integer. -/
def fmtDecimal (n : Nat) : GoString := (Nat.toDigits 10 n).map Char.toNat

/-! ## error.go -/

/-- The struct `Error`: the messages of one decode. -/
structure Error where
  Errors : List GoString

/-- `fmt.Sprintf("* %s", err)`. -/
def bullet (err : GoString) : GoString := str "* " ++ err

/-- The loop `for i, err := range e.Errors { points[i] = Sprintf("* %s", err) }`
run on the slice `points`. -/
def fillPoints (errs : List GoString) (points : List GoString) : List GoString :=
  (errs.enum.foldl (fun pts ie => pts.set ie.1 (bullet ie.2)) points)

/-- The method `(*Error).Error` on a non-nil receiver. -/
def Error.Error (e : Error) : GoString :=
  let points := List.replicate e.Errors.length []
  let points := fillPoints e.Errors points
  let points := sort_Strings points
  fmtDecimal e.Errors.length ++ str " error(s) decoding:\n\n" ++ Join points (str "\n")

/-- A non-nil value of the interface `error`: either a `*Error` of this
package or any other error, known by the message its `Error` method returns
(`errors.New(s)` is the error with message `s`). -/
inductive GoError
  | errorString (s : GoString)
  | aggregate (e : Error)

/-- `errors.New`. -/
def errors_New (s : GoString) : GoError := GoError.errorString s

/-- The call `err.Error()` through the interface. -/
def GoError.Error : GoError → GoString
  | GoError.errorString s => s
  | GoError.aggregate e => e.Error

/-- The type `fieldErrors`, a `map[string]error`: its entries, in the order in
which a `range` visits them. A map has each key once. -/
abbrev fieldErrors := List (GoString × GoError)

/-- A map holds every key once. -/
def fieldErrors.WF (fe : fieldErrors) : Prop := (fe.map Prod.fst).Nodup

/-- The index expression `fe[key]`; `none` is the nil interface of a missing key. -/
def fieldErrors.index (fe : fieldErrors) (key : GoString) : Option GoError :=
  (fe.find? (fun kv => kv.1 == key)).map Prod.snd

/-- The loop `for key := range fe { keys = append(keys, key) }`. -/
def fieldErrors.keys (fe : fieldErrors) : List GoString :=
  fe.foldl (fun keys kv => keys ++ [kv.1]) []

/-- The body of the loop over the sorted keys: four writes to the builder
`sb`. Calling `Error` on a nil interface panics: the result is `none` then. -/
def fieldErrors.writeEntry (fe : fieldErrors) (sb : GoString) (key : GoString) :
    Option GoString :=
  match fe.index key with
  | none => none
  | some err => some (sb ++ key ++ str ": " ++ err.Error ++ str ", ")

/-- The method `fieldErrors.Error`; `none` when it panics. -/
def fieldErrors.Error (fe : fieldErrors) : Option GoString :=
  let keys := sort_Strings fe.keys
  match keys.foldlM fe.writeEntry [] with
  | none => none
  | some sb => some (TrimSuffix sb (str ", "))

/-- The method `(*Error).WrappedErrors`; the receiver may be nil, and the
result is the nil slice (`none`) then. `make([]error, n)` is `n` nil
interfaces (`none`), each then overwritten in the loop. -/
def Error.WrappedErrors (e : Option Conf.Error) : Option (List (Option GoError)) :=
  match e with
  | none => none
  | some e =>
    let result : List (Option GoError) := List.replicate e.Errors.length none
    some (e.Errors.enum.foldl (fun res ie => res.set ie.1 (some (errors_New ie.2))) result)

/-! ## util.go -/

/-- The function `stringSlice`. -/
def stringSlice (s : GoString) : List GoString :=
  let s := TrimSuffix (TrimPrefix s (str "[")) (str "]")
  Split s 44

/-! ## reflect values and isZero -/

/-- The kinds of `reflect.Kind`. `Int` stands for the kinds `Int`, `Int8`, ...,
`Int64`, `Uint` for `Uint`, ..., `Uint64` and `Uintptr`, `Float` for the two
float kinds and `Complex` for the two complex kinds. -/
inductive Kind
  | Invalid | Bool | Int | Uint | Float | Complex | Array | Chan | Func
  | Interface | Map | Ptr | Slice | String | Struct | UnsafePointer
  deriving DecidableEq

/-- A Go value as `reflect` shows it, by kind, with what `isZero` and the
methods it calls can observe. A float is given by its bit pattern. A struct of
type `time.Time` is given by its instant (`sec` seconds after January 1 of
year 1, and `nsec` nanoseconds) and by whether its location pointer is nil;
any other struct by its fields. -/
inductive GoValue
  | invalid
  | bool (b : Bool)
  | int (i : Int)
  | uint (u : Nat)
  | float (bits : Nat)
  | complex (re im : Nat)
  | string (s : GoString)
  | ptr (isNil : Bool)
  | iface (isNil : Bool)
  | map (isNil : Bool)
  | chan (isNil : Bool)
  | func (isNil : Bool)
  | unsafePointer (isNil : Bool)
  | slice (isNil : Bool) (elems : List GoValue)
  | array (elems : List GoValue)
  | struct (fields : List GoValue)
  | time (sec : Int) (nsec : Nat) (locIsNil : Bool)

/-- A `reflect.Value`: the Go value it holds and its read-only flag
(`flagRO`), which is set when the Value was obtained through an unexported
struct field. -/
structure Value where
  val : GoValue
  flagRO : Bool

/-- The kind of a Go value. -/
def GoValue.Kind : GoValue → Kind
  | .invalid => Kind.Invalid
  | .bool _ => Kind.Bool
  | .int _ => Kind.Int
  | .uint _ => Kind.Uint
  | .float _ => Kind.Float
  | .complex _ _ => Kind.Complex
  | .string _ => Kind.String
  | .ptr _ => Kind.Ptr
  | .iface _ => Kind.Interface
  | .map _ => Kind.Map
  | .chan _ => Kind.Chan
  | .func _ => Kind.Func
  | .unsafePointer _ => Kind.UnsafePointer
  | .slice _ _ => Kind.Slice
  | .array _ => Kind.Array
  | .struct _ => Kind.Struct
  | .time _ _ _ => Kind.Struct

/-- `Value.Kind`. -/
def Value.Kind (v : Value) : Kind := v.val.Kind

/-- `Value.IsNil`; it panics (`none`) on a kind that has no nil. The read-only
flag does not matter to it. -/
def Value.IsNil (v : Value) : Option Bool :=
  match v.val with
  | .ptr n => some n
  | .iface n => some n
  | .map n => some n
  | .chan n => some n
  | .func n => some n
  | .unsafePointer n => some n
  | .slice n _ => some n
  | _ => none

/-- `Value.Len`; it panics (`none`) on a kind that has no length. The length
of a map or channel is not needed here. The read-only flag does not matter
to it. -/
def Value.Len (v : Value) : Option Nat :=
  match v.val with
  | .slice _ es => some es.length
  | .array es => some es.length
  | .string s => some s.length
  | _ => none

/-- `Value.CanInterface`: `Interface` may be called without a panic. -/
def Value.CanInterface (v : Value) : Bool := !v.flagRO

/-- `Value.Interface`: the value held, as an `interface{}`. It panics (`none`)
on the invalid Value and on a Value obtained from an unexported field. -/
def Value.Interface (v : Value) : Option GoValue :=
  match v.val with
  | .invalid => none
  | x => if v.flagRO then none else some x

/-- The type assertion `i.(time.Time)` with two results: the instant, when the
value held is a `time.Time`. -/
def GoValue.asTime : GoValue → Option (Int × Nat)
  | .time sec nsec _ => some (sec, nsec)
  | _ => none

/-- `Time.IsZero`: the instant is January 1, year 1, 00:00:00 UTC. -/
def Time_IsZero (t : Int × Nat) : Bool := t.1 == 0 && t.2 == 0

mutual
/-- The library's test for the zero value of a type, on the Go value; it
panics (`none`) on the invalid value. Whether a float is zero is left to
`floatZero`, a test on the bit pattern. -/
def GoValue.IsZero (floatZero : Nat → Bool) : GoValue → Option Bool
  | .invalid => none
  | .bool b => some (!b)
  | .int i => some (i == 0)
  | .uint u => some (u == 0)
  | .float bits => some (floatZero bits)
  | .complex re im => some (floatZero re && floatZero im)
  | .string s => some (s.length == 0)
  | .ptr n => some n
  | .iface n => some n
  | .map n => some n
  | .chan n => some n
  | .func n => some n
  | .unsafePointer n => some n
  | .slice n _ => some n
  | .array es => GoValue.allZero floatZero es
  | .struct fs => GoValue.allZero floatZero fs
  | .time sec nsec locIsNil => some (sec == 0 && nsec == 0 && locIsNil)
/-- All values of a list are zero, by `GoValue.IsZero`. -/
def GoValue.allZero (floatZero : Nat → Bool) : List GoValue → Option Bool
  | [] => some true
  | v :: vs =>
    match GoValue.IsZero floatZero v, GoValue.allZero floatZero vs with
    | some a, some b => some (a && b)
    | _, _ => none
end

/-- The library's `Value.IsZero`. The read-only flag does not matter to it. -/
def Value.IsZero (floatZero : Nat → Bool) (v : Value) : Option Bool :=
  v.val.IsZero floatZero

/-- The function `isZero`; `none` when a library call panics. In the case
`reflect.Struct` the call `v.Interface()` comes first, with no test of
`CanInterface` before it. -/
def isZero (floatZero : Nat → Bool) (v : Value) : Option Bool :=
  match v.Kind with
  | Kind.Ptr | Kind.Interface => v.IsNil
  | Kind.Slice | Kind.Array => v.Len.map (fun n => n == 0)
  | Kind.Struct =>
    match v.Interface with
    | none => none
    | some i =>
      match i.asTime with
      | some t => some (Time_IsZero t)
      | none => some false
  | Kind.Invalid => some true
  | _ => v.IsZero floatZero

/-- Zero as the specification words it: a nil pointer or nil interface, a
slice or array of length 0, a time at the zero instant, a bool, integer or
string equal to the zero value of its type, or the invalid value. -/
def specZero : GoValue → Bool
  | .ptr n => n
  | .iface n => n
  | .slice _ es => es.length == 0
  | .array es => es.length == 0
  | .time sec nsec _ => sec == 0 && nsec == 0
  | .bool b => !b
  | .int i => i == 0
  | .uint u => u == 0
  | .string s => s.length == 0
  | .invalid => true
  | _ => false

/-- Zero for the kinds the specification does not name: a nil map, channel,
function or unsafe pointer, and a float or complex number that is zero. -/
def otherZero (floatZero : Nat → Bool) : GoValue → Bool
  | .map n => n
  | .chan n => n
  | .func n => n
  | .unsafePointer n => n
  | .float bits => floatZero bits
  | .complex re im => floatZero re && floatZero im
  | _ => false

/-! ## option.go -/

/-- Modelled from the spec: the declaration of the struct `conf` is not among
the sources. Its fields are those the options assign, which are the knobs the
specification lists (filename, ignoreFile, search dirs, tag key, time layout,
useEnv and prefix); `other` stands for whatever further fields it has. -/
structure conf (ρ : Type) where
  filename : GoString
  ignoreFile : Bool
  dirs : List GoString
  tag : GoString
  timeLayout : GoString
  useEnv : Bool
  envPrefix : GoString
  other : ρ

/-- The type `Option`, a `func(f *conf)`: the configuration after the call,
from the configuration before. -/
abbrev ConfOption (ρ : Type) := conf ρ → conf ρ

/-- The option `File`. -/
def File {ρ : Type} (name : GoString) : ConfOption ρ :=
  fun f => { f with filename := name }

/-- The option `IgnoreFile`. -/
def IgnoreFile {ρ : Type} : ConfOption ρ :=
  fun f => { f with ignoreFile := true }

/-- The option `Dirs`. -/
def Dirs {ρ : Type} (dirs : List GoString) : ConfOption ρ :=
  fun f => { f with dirs := dirs }

/-- The option `Tag`. -/
def Tag {ρ : Type} (tag : GoString) : ConfOption ρ :=
  fun f => { f with tag := tag }

/-- The option `TimeLayout`. -/
def TimeLayout {ρ : Type} (layout : GoString) : ConfOption ρ :=
  fun f => { f with timeLayout := layout }

/-- The option `UseEnv`. -/
def UseEnv {ρ : Type} (pre : GoString) : ConfOption ρ :=
  fun f => { f with useEnv := true, envPrefix := pre }

/-! ## error.go on a memory of string arrays

To tell a write through one slice from a write through another, the arrays
behind the `[]string` slices are kept in a memory, by address; a slice is
taken to span its whole array. -/

/-- The memory of string arrays: the array at each address, and the first
address not yet allocated. -/
structure Mem where
  arrays : Nat → List GoString
  next : Nat

/-- `make([]string, n)`: a fresh array of `n` empty strings; its address and
the memory after. -/
def Mem.make (m : Mem) (n : Nat) : Nat × Mem :=
  (m.next, ⟨Function.update m.arrays m.next (List.replicate n []), m.next + 1⟩)

/-- The assignment `a[i] = x`. -/
def Mem.store (m : Mem) (a i : Nat) (x : GoString) : Mem :=
  ⟨Function.update m.arrays a ((m.arrays a).set i x), m.next⟩

/-- `sort.Strings(a)`: the array at `a` sorted in place. -/
def Mem.sortStrings (m : Mem) (a : Nat) : Mem :=
  ⟨Function.update m.arrays a (sort_Strings (m.arrays a)), m.next⟩

/-- A non-nil `*Error` in memory: the address of the array of its `Errors`. -/
structure ErrorAt where
  Errors : Nat

/-- The method `(*Error).Error` run on a memory: the string returned and the
memory after the call. -/
def ErrorAt.Error (m : Mem) (e : ErrorAt) : GoString × Mem :=
  let n := (m.arrays e.Errors).length
  let (points, m₁) := m.make n
  let m₂ := (List.range n).foldl
    (fun mem i => mem.store points i (bullet ((mem.arrays e.Errors).getD i []))) m₁
  let m₃ := m₂.sortStrings points
  (fmtDecimal (m₃.arrays e.Errors).length ++ str " error(s) decoding:\n\n"
    ++ Join (m₃.arrays points) (str "\n"), m₃)

/-- The method `(*Error).WrappedErrors` run on a memory: the slice returned
and the memory after the call. -/
def ErrorAt.WrappedErrors (m : Mem) (e : Option ErrorAt) :
    Option (List (Option GoError)) × Mem :=
  match e with
  | none => (none, m)
  | some e =>
    let n := (m.arrays e.Errors).length
    let result : List (Option GoError) := List.replicate n none
    (some ((List.range n).foldl
      (fun res i => res.set i (some (errors_New ((m.arrays e.Errors).getD i [])))) result), m)

/-- A memory with one array, `["b", "a"]` at address 0. -/
def sampleMem : Mem := ⟨fun a => if a = 0 then [str "b", str "a"] else [], 1⟩

/-! ## Definitions used to state the properties -/

/-- The string without one leading `[`, if it has one, and then without one
trailing `]`, if it has one: the optional bracket syntax removed. -/
def unbracket (s : GoString) : GoString :=
  let s₁ := if s.head? = some 91 then s.tail else s
  if s₁.getLast? = some 93 then s₁.dropLast else s₁

/-- One entry as it is written to the builder, without the separator. -/
def renderEntry (kv : GoString × GoError) : GoString :=
  kv.1 ++ str ": " ++ kv.2.Error

/-- The entries of a field error set in increasing order of path. -/
def sortedEntries (fe : fieldErrors) : List (GoString × GoError) :=
  fe.insertionSort (fun a b => strLe a.1 b.1)

instance fieldErrors.decidableWF (fe : fieldErrors) : Decidable fe.WF :=
  inferInstanceAs (Decidable (List.Nodup _))

/-- Two recorded failures, the path `b` recorded before the path `a`; the
reason of `a` itself ends in the separator. -/
def sampleFieldErrors : fieldErrors :=
  [(str "b", GoError.errorString (str "x")), (str "a", GoError.errorString (str "y, "))]

/-- The same two failures, recorded in the other order. -/
def sampleFieldErrorsSwapped : fieldErrors :=
  [(str "a", GoError.errorString (str "y, ")), (str "b", GoError.errorString (str "x"))]

/-! ## util.go: fileExists -/

/-- The errors of `os.Stat` that are told apart here: the file does not exist
(`ENOENT`), permission is denied on the way to it (`EACCES`), the name is not
a valid one, as one with a NUL byte (`EINVAL`). -/
inductive StatError
  | notExist
  | permission
  | invalid
  deriving DecidableEq

/-- What `os.FileInfo` tells of an entry that was found. -/
structure FileInfo where
  isDir : Bool

/-- The outcome of `os.Stat`: the entry found, or the error. -/
inductive StatOutcome
  | found (info : FileInfo)
  | failed (err : StatError)

/-- The first result of `os.Stat`: nil (`none`) when the call failed. -/
def StatOutcome.info : StatOutcome → Option FileInfo
  | StatOutcome.found i => some i
  | StatOutcome.failed _ => none

/-- The second result of `os.Stat`: nil (`none`) when the call succeeded. -/
def StatOutcome.err : StatOutcome → Option StatError
  | StatOutcome.found _ => none
  | StatOutcome.failed e => some e

/-- `os.IsNotExist`: the error says that the file does not exist; false of
the nil error. -/
def os_IsNotExist : Option StatError → Bool
  | some StatError.notExist => true
  | _ => false

/-- The function `fileExists`, on the file system given by `stat`. The call
`info.IsDir()` on a nil `info` panics: the result is `none` then. -/
def fileExists (stat : GoString → StatOutcome) (filename : GoString) : Option Bool :=
  let info := (stat filename).info
  let err := (stat filename).err
  if os_IsNotExist err then some false
  else
    match info with
    | none => none
    | some i => some (!i.isDir)

/-- A file system on which every name with a NUL byte is invalid, `secret` is
out of reach, `etc` is a directory, `config.yaml` a file, and nothing else exists. -/
def sampleStat (filename : GoString) : StatOutcome :=
  if 0 ∈ filename then StatOutcome.failed StatError.invalid
  else if filename = str "secret" then StatOutcome.failed StatError.permission
  else if filename = str "etc" then StatOutcome.found ⟨true⟩
  else if filename = str "config.yaml" then StatOutcome.found ⟨false⟩
  else StatOutcome.failed StatError.notExist

/-! ## error.go: appendErrors -/

/-- A value of the interface `error` as `appendErrors` may receive it: the nil
interface, an interface holding a nil `*Error`, or a non-nil error. -/
inductive ErrorArg
  | nilInterface
  | nilPointer
  | nonNil (err : GoError)

/-- The function `appendErrors`. The case `*Error` reads `e.Errors`, the
default case calls `e.Error()`: on a nil pointer, and on the nil interface,
that panics (`none`). -/
def appendErrors (errors : List GoString) (err : ErrorArg) : Option (List GoString) :=
  match err with
  | ErrorArg.nonNil (GoError.aggregate e) => some (errors ++ e.Errors)
  | ErrorArg.nilPointer => none
  | ErrorArg.nonNil (GoError.errorString s) => some (errors ++ [(GoError.errorString s).Error])
  | ErrorArg.nilInterface => none

/-! ## The environment source and the order of the sources -/

/-- `strings.ToUpper` on one byte: an ASCII lower-case letter becomes the
upper-case one. -/
def upperByte (b : Nat) : Nat := if 97 ≤ b ∧ b ≤ 122 then b - 32 else b

/-- `strings.ToUpper`, for strings whose letters are ASCII; other bytes are
left as they are. -/
def ToUpper (s : GoString) : GoString := s.map upperByte

/-- One segment of a field path: the identifier of the field and the alias its
tag gives it, if any. -/
structure FieldSeg where
  name : GoString
  tagAlias : Option GoString

/-- Modelled from the spec: the Type Inspector is not among the sources. The
canonical name of a field is the alias from its tag if present, else the
identifier as written. -/
def FieldSeg.canonical (s : FieldSeg) : GoString :=
  match s.tagAlias with
  | some a => a
  | none => s.name

/-- Modelled from the spec: the Environment Resolver is not among the
sources. The variable name joins the `pre` (uppercased, left out when empty)
and every path segment (each uppercased) with underscores. -/
def envKey (pre : GoString) (path : List GoString) : GoString :=
  Join ((if pre = [] then [] else [ToUpper pre]) ++ path.map ToUpper) (str "_")

/-- Modelled from the spec: the Environment Resolver is not among the
sources. The variable consulted for the field at `path`, built from the
canonical names of the path; none when the environment source is not
enabled, the resolver being skipped then. -/
def envVarConsulted {ρ : Type} (f : conf ρ) (path : List FieldSeg) : Option GoString :=
  if f.useEnv then some (envKey f.envPrefix (path.map FieldSeg.canonical)) else none

/-- Modelled from the spec: the Environment Resolver is not among the
sources. The name is looked up verbatim in the environment snapshot `env`;
absent (`none`) if unset or if the source is not enabled. -/
def envLookup {ρ : Type} (f : conf ρ) (env : GoString → Option GoString)
    (path : List FieldSeg) : Option GoString :=
  match envVarConsulted f path with
  | none => none
  | some key => env key

/-- A raw value before coercion: a text (from the environment or from a
default tag) or a value of the tree decoded from the file. -/
inductive RawValue (τ : Type)
  | text (s : GoString)
  | tree (t : τ)

/-- Modelled from the spec: the Field Walker is not among the sources. Steps
2 to 5 for one field that is not a struct: start with the current value;
apply the default (coerced) if the field is still zero; apply the file value
(coerced) if present, whatever the current value; apply the environment
value (coerced) if present, whatever the current value. A coercion failure
is recorded as a field error and ends the work on the field (`none`). -/
def resolveField {τ ν : Type} (zero : ν → Bool) (coerce : RawValue τ → Option ν)
    (current : ν) (dflt fileVal envVal : Option (RawValue τ)) : Option ν :=
  let afterDefault : Option ν :=
    match dflt with
    | some d => if zero current then coerce d else some current
    | none => some current
  match afterDefault with
  | none => none
  | some v₁ =>
    let afterFile : Option ν :=
      match fileVal with
      | some r => coerce r
      | none => some v₁
    match afterFile with
    | none => none
    | some v₂ =>
      match envVal with
      | some r => coerce r
      | none => some v₂

/-- Modelled from the spec: the Loader and the Field Walker are not among the
sources. The value of the field at `path` after `Load` under the
configuration `f`: the file value is what the File Resolver found, the
environment value what the Environment Resolver finds in `env`. -/
def loadField {ρ τ ν : Type} (f : conf ρ) (zero : ν → Bool)
    (coerce : RawValue τ → Option ν) (env : GoString → Option GoString)
    (path : List FieldSeg) (current : ν) (dflt : Option GoString)
    (fileVal : Option (RawValue τ)) : Option ν :=
  resolveField zero coerce current (dflt.map RawValue.text) fileVal
    ((envLookup f env path).map RawValue.text)

/-- The path of the field `Server.Host`. -/
def pathServerHost : List FieldSeg := [⟨str "Server", none⟩, ⟨str "Host", none⟩]

/-- The path of the top-level field `LogLevel` with the alias `log_level`. -/
def pathLogLevel : List FieldSeg := [⟨str "LogLevel", some (str "log_level")⟩]

/-- A configuration as `Load` starts from, with nothing further in it. -/
def sampleConf : conf Unit :=
  ⟨str "config.yaml", false, [str "."], str "conf", str "2006-01-02T15:04:05Z07:00",
    false, [], ()⟩

/-- An environment in which only `MYAPP_SERVER_HOST` is set. -/
def sampleEnv (key : GoString) : Option GoString :=
  if key = str "MYAPP_SERVER_HOST" then some (str "env.example") else none

/-- Coercion to a string field: a text is taken as it is, and so is a string
of the file. -/
def coerceString : RawValue GoString → Option GoString
  | RawValue.text s => some s
  | RawValue.tree t => some t

/-! ## The order of strings -/

theorem strLess_irrefl (a : GoString) : strLess a a = false := by
  induction a with
  | nil => rfl
  | cons x xs ih => simp [strLess, ih]

theorem strLess_asymm : ∀ a b : GoString, strLess a b = true → strLess b a = false
  | [], [] => by simp [strLess]
  | [], _ :: _ => by simp [strLess]
  | _ :: _, [] => by simp [strLess]
  | x :: xs, y :: ys => by
    have ih := strLess_asymm xs ys
    simp only [strLess]
    split_ifs <;> first | omega | simp | exact ih

theorem strLess_trans : ∀ a b c : GoString,
    strLess a b = true → strLess b c = true → strLess a c = true
  | [], [], _ => by simp [strLess]
  | [], _ :: _, [] => by simp [strLess]
  | [], _ :: _, _ :: _ => by simp [strLess]
  | _ :: _, [], _ => by simp [strLess]
  | _ :: _, _ :: _, [] => by simp [strLess]
  | x :: xs, y :: ys, z :: zs => by
    have ih := strLess_trans xs ys zs
    simp only [strLess]
    split_ifs <;> first | omega | simp | exact ih

theorem strLess_connex : ∀ a b : GoString,
    strLess a b = false → strLess b a = false → a = b
  | [], [] => by simp
  | [], _ :: _ => by simp [strLess]
  | _ :: _, [] => by simp [strLess]
  | x :: xs, y :: ys => by
    have ih := strLess_connex xs ys
    simp only [strLess]
    split_ifs <;> first | omega | simp
    intro h1 h2
    have : x = y := by omega
    exact ⟨this, ih h1 h2⟩

theorem strLess_negtrans (a b c : GoString)
    (h1 : strLess b a = false) (h2 : strLess c b = false) : strLess c a = false := by
  by_contra h
  simp at h
  by_cases hab : strLess a b = true
  · have := strLess_trans c a b h hab
    simp [this] at h2
  · simp at hab
    have := strLess_connex a b hab h1
    subst this
    simp [h] at h2

/-- Go's comparison is the lexicographic order of the byte sequences. -/
theorem strLess_iff_lex (a b : GoString) :
    strLess a b = true ↔ List.Lex (fun x y : Nat => x < y) a b := by
  induction a generalizing b with
  | nil => cases b <;> simp [strLess, List.Lex.nil]
  | cons x xs ih =>
    cases b with
    | nil => simp [strLess]
    | cons y ys =>
      simp only [strLess]
      constructor
      · split_ifs with h1 h2
        · intro _; exact List.Lex.rel h1
        · simp
        · intro h
          have : x = y := by omega
          subst this
          exact List.Lex.cons ((ih ys).1 h)
      · intro h
        cases h with
        | cons h => simp [(ih ys).2 h]
        | rel h => simp [h]

instance strLe.isTotal : IsTotal GoString strLe :=
  ⟨fun a b => by
    unfold strLe
    by_cases h : strLess b a = true
    · exact Or.inr (strLess_asymm b a h)
    · exact Or.inl (by simpa using h)⟩

instance strLe.isTrans : IsTrans GoString strLe :=
  ⟨fun a b c h1 h2 => strLess_negtrans a b c h1 h2⟩

instance strLe.isAntisymm : IsAntisymm GoString strLe :=
  ⟨fun a b h1 h2 => strLess_connex a b h2 h1⟩

/-! ## Rendering of field errors -/

theorem str_commaSpace : str ", " = [44, 32] := by decide

theorem str_colonSpace : str ": " = [58, 32] := by decide

theorem fieldErrors_keys_eq (fe : fieldErrors) : fe.keys = fe.map Prod.fst := by
  have h : ∀ (l : fieldErrors) (acc : List GoString),
      l.foldl (fun keys kv => keys ++ [kv.1]) acc = acc ++ l.map Prod.fst := by
    intro l
    induction l with
    | nil => simp
    | cons kv l ih => intro acc; simp [ih]
  simpa [fieldErrors.keys] using h fe []

theorem fieldErrors_index_of_mem (fe : fieldErrors) (hwf : fe.WF)
    (kv : GoString × GoError) (hmem : kv ∈ fe) : fe.index kv.1 = some kv.2 := by
  induction fe with
  | nil => simp at hmem
  | cons x l ih =>
    have hnd : x.1 ∉ l.map Prod.fst ∧ (l.map Prod.fst).Nodup := by
      simpa [fieldErrors.WF] using hwf
    rcases List.mem_cons.1 hmem with h | h
    · subst h
      simp [fieldErrors.index]
    · have hne : x.1 ≠ kv.1 := by
        intro he
        exact hnd.1 (he ▸ List.mem_map_of_mem Prod.fst h)
      have := ih hnd.2 h
      simp only [fieldErrors.index] at this ⊢
      rw [List.find?_cons_of_neg]
      · exact this
      · simpa using hne

theorem builder_loop (fe : fieldErrors) (es : List (GoString × GoError))
    (h : ∀ kv ∈ es, fe.index kv.1 = some kv.2) (acc : GoString) :
    (es.map Prod.fst).foldlM fe.writeEntry acc
      = some (acc ++ (es.map (fun kv => renderEntry kv ++ str ", ")).flatten) := by
  induction es generalizing acc with
  | nil => simp
  | cons kv es ih =>
    have h1 := h kv (List.mem_cons_self _ _)
    have h2 : ∀ kv ∈ es, fe.index kv.1 = some kv.2 :=
      fun x hx => h x (List.mem_cons_of_mem _ hx)
    simp only [List.map_cons, List.foldlM_cons, fieldErrors.writeEntry, h1,
      Option.bind_eq_bind, Option.some_bind, List.flatten_cons]
    rw [ih h2]
    simp [renderEntry, List.append_assoc]

theorem TrimSuffix_append (x sep : GoString) : TrimSuffix (x ++ sep) sep = x := by
  simp [TrimSuffix, HasSuffix]

theorem join_sep_eq (sep : GoString) (xs : List GoString) (hne : xs ≠ []) :
    (xs.map (fun x => x ++ sep)).flatten = List.intercalate sep xs ++ sep := by
  induction xs with
  | nil => exact absurd rfl hne
  | cons x xs ih =>
    cases xs with
    | nil => simp [List.intercalate]
    | cons y ys =>
      have := ih (by simp)
      simp only [List.map_cons, List.flatten_cons] at this ⊢
      rw [this]
      simp [List.intercalate, List.append_assoc]

theorem TrimSuffix_join_sep (sep : GoString) (xs : List GoString) :
    TrimSuffix ((xs.map (fun x => x ++ sep)).flatten) sep = List.intercalate sep xs := by
  cases xs with
  | nil => simp [TrimSuffix, HasSuffix, List.intercalate]
  | cons x xs => rw [join_sep_eq sep _ (by simp), TrimSuffix_append]

theorem sort_Strings_eq_of_perm_sorted (xs ys : List GoString)
    (hp : ys.Perm xs) (hs : ys.Sorted strLe) : sort_Strings xs = ys :=
  List.eq_of_perm_of_sorted ((List.perm_insertionSort strLe xs).trans hp.symm)
    (List.sorted_insertionSort strLe xs) hs

/-- The rendering of a field error set, given its entries in increasing order of path. -/
theorem fieldErrors_Error_of_sorted (fe : fieldErrors) (hwf : fe.WF)
    (es : List (GoString × GoError)) (hp : es.Perm fe)
    (hs : (es.map Prod.fst).Sorted strLe) :
    fieldErrors.Error fe = some (List.intercalate (str ", ") (es.map renderEntry)) := by
  have hkeys : sort_Strings fe.keys = es.map Prod.fst := by
    rw [fieldErrors_keys_eq]
    exact sort_Strings_eq_of_perm_sorted _ _ (hp.map _) hs
  have hidx : ∀ kv ∈ es, fe.index kv.1 = some kv.2 :=
    fun kv hkv => fieldErrors_index_of_mem fe hwf kv (hp.subset hkv)
  have := TrimSuffix_join_sep (str ", ") (es.map renderEntry)
  simp only [List.map_map] at this
  simp only [fieldErrors.Error, hkeys, builder_loop fe es hidx, List.nil_append]
  exact congrArg some this

theorem sortedEntries_perm (fe : fieldErrors) : (sortedEntries fe).Perm fe :=
  List.perm_insertionSort _ fe

instance strLeKey.isTotal : IsTotal (GoString × GoError) (fun a b => strLe a.1 b.1) :=
  ⟨fun a b => strLe.isTotal.total a.1 b.1⟩

instance strLeKey.isTrans : IsTrans (GoString × GoError) (fun a b => strLe a.1 b.1) :=
  ⟨fun _ _ _ h1 h2 => strLe.isTrans.trans _ _ _ h1 h2⟩

theorem sortedEntries_sorted (fe : fieldErrors) :
    ((sortedEntries fe).map Prod.fst).Sorted strLe := by
  have h := List.sorted_insertionSort (fun a b : GoString × GoError => strLe a.1 b.1) fe
  exact List.pairwise_map.2 h

theorem strLess_of_strLe_of_ne (a b : GoString) (h : strLe a b) (hne : a ≠ b) :
    strLess a b = true := by
  by_contra hc
  exact hne (strLess_connex a b (by simpa using hc) h)

theorem sortedEntries_strict (fe : fieldErrors) (hwf : fe.WF) :
    ((sortedEntries fe).map Prod.fst).Sorted (fun a b => strLess a b = true) := by
  have hnd : ((sortedEntries fe).map Prod.fst).Nodup :=
    (((sortedEntries_perm fe).map Prod.fst).nodup_iff).2 hwf
  have hs : ((sortedEntries fe).map Prod.fst).Pairwise strLe := sortedEntries_sorted fe
  exact (hs.and hnd).imp (fun h => strLess_of_strLe_of_ne _ _ h.1 h.2)

/-- C1: for a field error set (each path once), `fieldErrors.Error` returns the
strings `<path>: <reason>` of all entries, in strictly increasing byte-wise
order of path, joined by `", "` with no trailing separator; the empty set
renders as the empty string, and a reason ending in `", "` is kept whole. -/
theorem fieldErrors_Error_spec (fe : fieldErrors) (hwf : fe.WF) :
    (∃ es : List (GoString × GoError), es.Perm fe ∧
      (es.map Prod.fst).Sorted (fun a b => strLess a b = true) ∧
      fieldErrors.Error fe = some (List.intercalate (str ", ") (es.map renderEntry))) ∧
    fieldErrors.Error [] = some [] ∧
    (∀ k r : GoString, fieldErrors.Error [(k, GoError.errorString (r ++ str ", "))]
      = some (k ++ str ": " ++ (r ++ str ", "))) := by
  refine ⟨⟨sortedEntries fe, sortedEntries_perm fe, sortedEntries_strict fe hwf,
    fieldErrors_Error_of_sorted fe hwf _ (sortedEntries_perm fe) (sortedEntries_sorted fe)⟩,
    by decide, ?_⟩
  intro k r
  have h := fieldErrors_Error_of_sorted [(k, GoError.errorString (r ++ str ", "))]
    (by simp [fieldErrors.WF]) [(k, GoError.errorString (r ++ str ", "))]
    (List.Perm.refl _) (by simp)
  simpa [List.intercalate, renderEntry, GoError.Error] using h

theorem fieldErrors_Error_spec_witness :
    sampleFieldErrors.WF ∧
    fieldErrors.Error sampleFieldErrors = some (str "a: y, , b: x") ∧
    ∃ es : List (GoString × GoError), es.Perm sampleFieldErrors ∧
      (es.map Prod.fst).Sorted (fun a b => strLess a b = true) ∧
      fieldErrors.Error sampleFieldErrors
        = some (List.intercalate (str ", ") (es.map renderEntry)) :=
  ⟨by decide, by decide, (fieldErrors_Error_spec sampleFieldErrors (by decide)).1⟩

/-- C2: two field error sets with the same entries, whatever the order in which
the entries were inserted or are visited, render to the same string (and the
rendering does return a string). -/
theorem fieldErrors_Error_order_independent (fe₁ fe₂ : fieldErrors) (hwf : fe₁.WF)
    (hp : fe₁.Perm fe₂) :
    fieldErrors.Error fe₁ = fieldErrors.Error fe₂ ∧
    ∃ s, fieldErrors.Error fe₂ = some s := by
  have hwf₂ : fe₂.WF := ((hp.map Prod.fst).nodup_iff).1 hwf
  have h₁ := fieldErrors_Error_of_sorted fe₁ hwf _ (sortedEntries_perm fe₁)
    (sortedEntries_sorted fe₁)
  have h₂ := fieldErrors_Error_of_sorted fe₂ hwf₂ _ ((sortedEntries_perm fe₁).trans hp)
    (sortedEntries_sorted fe₁)
  exact ⟨h₁.trans h₂.symm, _, h₂⟩

theorem fieldErrors_Error_order_independent_witness :
    sampleFieldErrors.WF ∧ sampleFieldErrors.Perm sampleFieldErrorsSwapped ∧
    fieldErrors.Error sampleFieldErrors = fieldErrors.Error sampleFieldErrorsSwapped ∧
    ∃ s, fieldErrors.Error sampleFieldErrorsSwapped = some s :=
  ⟨by decide, List.Perm.swap _ _ _,
    fieldErrors_Error_order_independent sampleFieldErrors sampleFieldErrorsSwapped
      (by decide) (List.Perm.swap _ _ _)⟩

/-! ## Rendering of the aggregate error -/

theorem set_loop {α β : Type} (f : α → β) (d : β) (xs : List α) (pre : List β) :
    (xs.enumFrom pre.length).foldl (fun acc ie => acc.set ie.1 (f ie.2))
      (pre ++ List.replicate xs.length d) = pre ++ xs.map f := by
  induction xs generalizing pre with
  | nil => simp
  | cons x xs ih =>
    have h := ih (pre ++ [f x])
    simp only [List.length_append, List.length_singleton, List.append_assoc,
      List.singleton_append] at h
    simp only [List.enumFrom_cons, List.foldl_cons, List.length_cons, List.replicate_succ,
      List.map_cons]
    rw [List.set_append_right _ _ (Nat.le_refl _)]
    simpa using h

theorem fillPoints_eq (errs : List GoString) :
    fillPoints errs (List.replicate errs.length []) = errs.map bullet := by
  have h := set_loop bullet [] errs []
  simpa [fillPoints, List.enum] using h

theorem Join_eq_intercalate (xs : List GoString) (sep : GoString) :
    Join xs sep = List.intercalate sep xs := by
  have h : ∀ (ys : List GoString) (acc x : GoString),
      ys.foldl (fun b s => b ++ sep ++ s) (acc ++ x)
        = acc ++ List.intercalate sep (x :: ys) := by
    intro ys
    induction ys with
    | nil => intro acc x; simp [List.intercalate]
    | cons y ys ih =>
      intro acc x
      have := ih (acc ++ x ++ sep) y
      simp only [List.foldl_cons, List.append_assoc] at this ⊢
      rw [this]
      simp [List.intercalate, List.append_assoc]
  cases xs with
  | nil => simp [Join, List.intercalate]
  | cons x xs => simpa [Join] using h xs [] x

theorem strLess_append_left (p a b : GoString) :
    strLess (p ++ a) (p ++ b) = strLess a b := by
  induction p with
  | nil => rfl
  | cons c p ih => simp [strLess, ih]

theorem sort_Strings_map_bullet (xs : List GoString) :
    sort_Strings (xs.map bullet) = (sort_Strings xs).map bullet := by
  unfold sort_Strings
  symm
  apply List.map_insertionSort
  intro a _ b _
  simp [strLe, bullet, strLess_append_left]

theorem sort_Strings_perm (xs : List GoString) : (sort_Strings xs).Perm xs :=
  List.perm_insertionSort strLe xs

theorem sort_Strings_sorted (xs : List GoString) : (sort_Strings xs).Sorted strLe :=
  List.sorted_insertionSort strLe xs

theorem sort_Strings_congr (xs ys : List GoString) (hp : xs.Perm ys) :
    sort_Strings xs = sort_Strings ys :=
  sort_Strings_eq_of_perm_sorted xs _ ((sort_Strings_perm ys).trans hp.symm)
    (sort_Strings_sorted ys)

theorem Error_Error_eq (e : Error) :
    e.Error = fmtDecimal e.Errors.length ++ str " error(s) decoding:\n\n"
      ++ List.intercalate (str "\n") ((sort_Strings e.Errors).map bullet) := by
  simp only [Error.Error, fillPoints_eq, Join_eq_intercalate, sort_Strings_map_bullet]

/-- C3: `Error` of an aggregate with `n` messages is the decimal `n`, then
`" error(s) decoding:\n\n"`, then the bullets `* <message>` joined by newlines
in increasing byte-wise order of the messages; sorting the bullets is sorting
the messages; with no message the result is `"0 error(s) decoding:\n\n"`. -/
theorem Error_Error_spec (e : Error) :
    (∃ ms : List GoString, ms.Perm e.Errors ∧ ms.Sorted strLe ∧
      e.Error = fmtDecimal e.Errors.length ++ str " error(s) decoding:\n\n"
        ++ List.intercalate (str "\n") (ms.map (fun m => str "* " ++ m))) ∧
    sort_Strings (e.Errors.map (fun m => str "* " ++ m))
      = (sort_Strings e.Errors).map (fun m => str "* " ++ m) ∧
    Error.Error ⟨[]⟩ = str "0 error(s) decoding:\n\n" ∧
    Error.Error ⟨[str "b", str "a"]⟩ = str "2 error(s) decoding:\n\n* a\n* b" :=
  ⟨⟨sort_Strings e.Errors, sort_Strings_perm _, sort_Strings_sorted _, Error_Error_eq e⟩,
    sort_Strings_map_bullet e.Errors, by decide, by decide⟩

/-- C4: two aggregates whose message lists are permutations of each other
render to the same string. -/
theorem Error_Error_perm (e₁ e₂ : Error) (hp : e₁.Errors.Perm e₂.Errors) :
    e₁.Error = e₂.Error := by
  rw [Error_Error_eq, Error_Error_eq, hp.length_eq, sort_Strings_congr _ _ hp]

theorem Error_Error_perm_witness :
    (Error.mk [str "b", str "a"]).Errors.Perm (Error.mk [str "a", str "b"]).Errors ∧
    Error.Error ⟨[str "b", str "a"]⟩ = Error.Error ⟨[str "a", str "b"]⟩ :=
  ⟨List.Perm.swap _ _ _, Error_Error_perm ⟨[str "b", str "a"]⟩ ⟨[str "a", str "b"]⟩
    (List.Perm.swap _ _ _)⟩

theorem WrappedErrors_eq (e : Error) :
    Error.WrappedErrors (some e) = some (e.Errors.map (fun m => some (errors_New m))) := by
  have h := set_loop (fun m => some (errors_New m)) none e.Errors []
  simp only [Error.WrappedErrors, List.enum]
  exact congrArg some (by simpa using h)

/-- C8: `WrappedErrors` of the nil receiver is the nil slice; of a non-nil
receiver it is a slice as long as `e.Errors` whose `i`-th element is the
error made by `errors.New` from `e.Errors[i]`, whose message is that string:
the messages, in their original order. -/
theorem WrappedErrors_spec :
    Error.WrappedErrors none = none ∧
    ∀ e : Error, ∃ r : List (Option GoError),
      Error.WrappedErrors (some e) = some r ∧
      r.length = e.Errors.length ∧
      (∀ i : Nat, r[i]? = (e.Errors[i]?).map (fun m => some (errors_New m))) ∧
      (∀ m : GoString, (errors_New m).Error = m) ∧
      r.map (Option.map GoError.Error) = e.Errors.map some := by
  refine ⟨rfl, fun e => ⟨_, WrappedErrors_eq e, by simp, fun i => by simp, fun m => rfl, ?_⟩⟩
  simp [errors_New, GoError.Error]

/-! ## stringSlice -/

theorem str_lbracket : str "[" = [91] := by decide

theorem str_rbracket : str "]" = [93] := by decide

theorem str_comma : str "," = [44] := by decide

theorem TrimPrefix_singleton (s : GoString) (c : Nat) :
    TrimPrefix s [c] = if s.head? = some c then s.tail else s := by
  cases s with
  | nil => simp [TrimPrefix, HasPrefix]
  | cons x xs => simp [TrimPrefix, HasPrefix]

theorem TrimSuffix_singleton (s : GoString) (c : Nat) :
    TrimSuffix s [c] = if s.getLast? = some c then s.dropLast else s := by
  rcases List.eq_nil_or_concat s with h | ⟨l, x, h⟩
  · subst h; simp [TrimSuffix, HasSuffix]
  · subst h
    simp [TrimSuffix, HasSuffix, List.getLast?_concat, List.dropLast_concat]

theorem stringSlice_eq (s : GoString) : stringSlice s = Split (unbracket s) 44 := by
  simp only [stringSlice, unbracket, str_lbracket, str_rbracket, TrimPrefix_singleton,
    TrimSuffix_singleton]

theorem Split_ne_nil (s : GoString) (sep : Nat) : Split s sep ≠ [] := by
  cases s with
  | nil => simp [Split]
  | cons c cs => simp only [Split]; split_ifs <;> simp

theorem Split_length (s : GoString) (sep : Nat) :
    (Split s sep).length = Count s sep + 1 := by
  induction s with
  | nil => simp [Split, Count]
  | cons c cs ih =>
    simp only [Split, Count] at ih ⊢
    split_ifs with h
    · subst h; simp [ih]
    · have hne := Split_ne_nil cs sep
      have hl : (Split cs sep).tail.length + 1 = (Split cs sep).length := by
        cases hsp : Split cs sep with
        | nil => exact absurd hsp hne
        | cons a l => simp
      rw [List.length_cons, hl, ih, List.count_cons_of_ne (Ne.symm h)]

theorem Split_no_sep (s : GoString) (sep : Nat) : ∀ x ∈ Split s sep, sep ∉ x := by
  induction s with
  | nil => simp [Split]
  | cons c cs ih =>
    intro x hx
    simp only [Split] at hx
    split_ifs at hx with h
    · rcases List.mem_cons.1 hx with h1 | h1
      · subst h1; simp
      · exact ih x h1
    · cases hsp : Split cs sep with
      | nil => exact absurd hsp (Split_ne_nil cs sep)
      | cons a l =>
        rw [hsp] at hx ih
        rcases List.mem_cons.1 hx with h1 | h1
        · subst h1
          have := ih a (List.mem_cons_self _ _)
          simp only [List.headD_cons, List.mem_cons, not_or]
          exact ⟨fun he => h he.symm, this⟩
        · exact ih x (List.mem_cons_of_mem _ (by simpa using h1))

theorem Split_intercalate (s : GoString) (sep : Nat) :
    List.intercalate [sep] (Split s sep) = s := by
  induction s with
  | nil => simp [Split, List.intercalate]
  | cons c cs ih =>
    simp only [Split]
    cases hsp : Split cs sep with
    | nil => exact absurd hsp (Split_ne_nil cs sep)
    | cons a l =>
      rw [hsp] at ih
      split_ifs with h
      · subst h
        have : List.intercalate [c] ([] :: a :: l) = c :: List.intercalate [c] (a :: l) := by
          simp [List.intercalate]
        rw [this, ih]
      · have : List.intercalate [sep] ((c :: (a :: l).headD []) :: (a :: l).tail)
            = c :: List.intercalate [sep] (a :: l) := by
          cases l <;> simp [List.intercalate]
        rw [this, ih]

theorem Count_unbracket (s : GoString) : Count (unbracket s) 44 = Count s 44 := by
  have h1 : ∀ t : GoString,
      Count (if t.head? = some 91 then t.tail else t) 44 = Count t 44 := by
    intro t
    cases t with
    | nil => simp
    | cons x xs =>
      by_cases hx : x = 91
      · subst hx; simp [Count]
      · simp [hx]
  have h2 : ∀ t : GoString,
      Count (if t.getLast? = some 93 then t.dropLast else t) 44 = Count t 44 := by
    intro t
    rcases List.eq_nil_or_concat t with h | ⟨l, x, h⟩
    · subst h; simp
    · subst h
      by_cases hx : x = 93
      · subst hx; simp [Count, List.getLast?_concat, List.dropLast_concat]
      · simp [List.getLast?_concat, hx]
  unfold unbracket
  rw [h2, h1]

theorem stringSlice_of_unbracketed (s : GoString)
    (h₁ : HasPrefix s (str "[") = false) (h₂ : HasSuffix s (str "]") = false) :
    stringSlice s = Split s 44 := by
  simp [stringSlice, TrimPrefix, TrimSuffix, h₁, h₂]

theorem stringSlice_bracketed (s : GoString) :
    stringSlice (str "[" ++ s ++ str "]") = Split s 44 := by
  have hp : TrimPrefix (str "[" ++ s ++ str "]") (str "[") = s ++ str "]" := by
    simp [TrimPrefix, HasPrefix, str_lbracket, str_rbracket]
  simp only [stringSlice, hp, TrimSuffix_append]

/-- C5: for a string that neither begins with `[` nor ends with `]`, wrapping
it in brackets does not change `stringSlice`; `"[a,b,c]"` and `"a,b,c"` both
give the three elements `a`, `b`, `c`. -/
theorem stringSlice_brackets_optional :
    (∀ s : GoString, HasPrefix s (str "[") = false → HasSuffix s (str "]") = false →
      stringSlice (str "[" ++ s ++ str "]") = stringSlice s) ∧
    stringSlice (str "[a,b,c]") = [str "a", str "b", str "c"] ∧
    stringSlice (str "a,b,c") = [str "a", str "b", str "c"] :=
  ⟨fun s h₁ h₂ => (stringSlice_bracketed s).trans (stringSlice_of_unbracketed s h₁ h₂).symm,
    by decide, by decide⟩

theorem stringSlice_brackets_optional_witness :
    HasPrefix (str "x, y") (str "[") = false ∧ HasSuffix (str "x, y") (str "]") = false ∧
    stringSlice (str "[" ++ str "x, y" ++ str "]") = stringSlice (str "x, y") :=
  ⟨by decide, by decide,
    stringSlice_brackets_optional.1 (str "x, y") (by decide) (by decide)⟩

/-- C6: `stringSlice s` is the split on commas of `s` without its optional
brackets: no element has a comma, there is one element more than `s` has
commas, and the elements joined by `","` are `s` without the brackets. -/
theorem stringSlice_spec (s : GoString) :
    stringSlice s = Split (unbracket s) 44 ∧
    unbracket s = TrimSuffix (TrimPrefix s (str "[")) (str "]") ∧
    (∀ x ∈ stringSlice s, 44 ∉ x) ∧
    (stringSlice s).length = Count s 44 + 1 ∧
    List.intercalate (str ",") (stringSlice s) = unbracket s := by
  refine ⟨stringSlice_eq s, ?_, ?_, ?_, ?_⟩
  · simp only [unbracket, str_lbracket, str_rbracket, TrimPrefix_singleton,
      TrimSuffix_singleton]
  · rw [stringSlice_eq]; exact Split_no_sep _ _
  · rw [stringSlice_eq, Split_length, Count_unbracket]
  · rw [stringSlice_eq, str_comma, Split_intercalate]

theorem stringSlice_spec_witness :
    str "a" ∈ stringSlice (str "[a,b]") ∧ 44 ∉ str "a" ∧
    (stringSlice (str "[a,b]")).length = 2 :=
  ⟨by decide, (stringSlice_spec (str "[a,b]")).2.2.1 (str "a") (by decide), by decide⟩

/-! ## isZero -/

theorem isZero_readOnly_struct (floatZero : Nat → Bool) (v : Value)
    (hk : v.Kind = Kind.Struct) (hro : v.flagRO = true) : isZero floatZero v = none := by
  obtain ⟨x, ro⟩ := v
  simp only at hro
  subst hro
  cases x <;> simp_all [isZero, Value.Kind, GoValue.Kind, Value.Interface]

/-- C7 as worded fails twice. A nil map is reported zero by `isZero`, and it is
none of the values that the wording lists as zero. A time value at the zero
instant that was read from an unexported field is listed as zero, and
`isZero` does not return on it: `v.Interface()` panics. -/
theorem isZero_nil_map_not_listed :
    (isZero (fun bits => bits == 0) ⟨GoValue.map true, false⟩ = some true ∧
      specZero (GoValue.map true) = false) ∧
    (isZero (fun bits => bits == 0) ⟨GoValue.time 0 0 true, true⟩ = none ∧
      specZero (GoValue.time 0 0 true) = true) :=
  ⟨⟨rfl, rfl⟩, ⟨rfl, rfl⟩⟩

/-- C7, amended: on every value that is not a struct read from an unexported
field, `isZero` returns, and it returns true exactly for the values the claim
lists (nil pointer, nil interface, slice or array of length 0, time at the
zero instant, zero bool, integer or string, invalid value) and for a nil map,
channel, function or unsafe pointer and a zero float or complex. -/
theorem isZero_spec (floatZero : Nat → Bool) (v : Value)
    (hv : v.Kind = Kind.Struct → v.flagRO = false) :
    isZero floatZero v = some (specZero v.val || otherZero floatZero v.val) := by
  obtain ⟨x, ro⟩ := v
  cases x <;> simp_all [isZero, Value.Kind, GoValue.Kind, Value.IsNil, Value.Len,
    Value.Interface, GoValue.asTime, Time_IsZero, Value.IsZero, GoValue.IsZero, specZero,
    otherZero]

theorem isZero_spec_witness :
    ((Value.mk (GoValue.time 0 0 false) false).Kind = Kind.Struct →
      (Value.mk (GoValue.time 0 0 false) false).flagRO = false) ∧
    isZero (fun bits => bits == 0) ⟨GoValue.time 0 0 false, false⟩ = some true ∧
    isZero (fun bits => bits == 0) ⟨GoValue.time 0 0 false, false⟩
      = some (specZero (GoValue.time 0 0 false)
          || otherZero (fun bits => bits == 0) (GoValue.time 0 0 false)) :=
  ⟨fun _ => rfl, rfl,
    isZero_spec (fun bits => bits == 0) ⟨GoValue.time 0 0 false, false⟩ (fun _ => rfl)⟩

/-! ## Options -/

/-- C9: each option sets the field it names (`UseEnv` its two fields) to the
value given, and every other field of the configuration, those not known here
included, is after the call what it was before. -/
theorem options_frame {ρ : Type} (f : conf ρ) (name t layout p : GoString)
    (ds : List GoString) :
    ((File name f).filename = name ∧
      (File name f).ignoreFile = f.ignoreFile ∧
      (File name f).dirs = f.dirs ∧
      (File name f).tag = f.tag ∧
      (File name f).timeLayout = f.timeLayout ∧
      (File name f).useEnv = f.useEnv ∧
      (File name f).envPrefix = f.envPrefix ∧
      (File name f).other = f.other) ∧
    ((IgnoreFile f).filename = f.filename ∧
      (IgnoreFile f).ignoreFile = true ∧
      (IgnoreFile f).dirs = f.dirs ∧
      (IgnoreFile f).tag = f.tag ∧
      (IgnoreFile f).timeLayout = f.timeLayout ∧
      (IgnoreFile f).useEnv = f.useEnv ∧
      (IgnoreFile f).envPrefix = f.envPrefix ∧
      (IgnoreFile f).other = f.other) ∧
    ((Dirs ds f).filename = f.filename ∧
      (Dirs ds f).ignoreFile = f.ignoreFile ∧
      (Dirs ds f).dirs = ds ∧
      (Dirs ds f).tag = f.tag ∧
      (Dirs ds f).timeLayout = f.timeLayout ∧
      (Dirs ds f).useEnv = f.useEnv ∧
      (Dirs ds f).envPrefix = f.envPrefix ∧
      (Dirs ds f).other = f.other) ∧
    ((Tag t f).filename = f.filename ∧
      (Tag t f).ignoreFile = f.ignoreFile ∧
      (Tag t f).dirs = f.dirs ∧
      (Tag t f).tag = t ∧
      (Tag t f).timeLayout = f.timeLayout ∧
      (Tag t f).useEnv = f.useEnv ∧
      (Tag t f).envPrefix = f.envPrefix ∧
      (Tag t f).other = f.other) ∧
    ((TimeLayout layout f).filename = f.filename ∧
      (TimeLayout layout f).ignoreFile = f.ignoreFile ∧
      (TimeLayout layout f).dirs = f.dirs ∧
      (TimeLayout layout f).tag = f.tag ∧
      (TimeLayout layout f).timeLayout = layout ∧
      (TimeLayout layout f).useEnv = f.useEnv ∧
      (TimeLayout layout f).envPrefix = f.envPrefix ∧
      (TimeLayout layout f).other = f.other) ∧
    ((UseEnv p f).filename = f.filename ∧
      (UseEnv p f).ignoreFile = f.ignoreFile ∧
      (UseEnv p f).dirs = f.dirs ∧
      (UseEnv p f).tag = f.tag ∧
      (UseEnv p f).timeLayout = f.timeLayout ∧
      (UseEnv p f).useEnv = true ∧
      (UseEnv p f).envPrefix = p ∧
      (UseEnv p f).other = f.other) := by
  refine ⟨⟨?_, ?_, ?_, ?_, ?_, ?_, ?_, ?_⟩, ⟨?_, ?_, ?_, ?_, ?_, ?_, ?_, ?_⟩,
    ⟨?_, ?_, ?_, ?_, ?_, ?_, ?_, ?_⟩, ⟨?_, ?_, ?_, ?_, ?_, ?_, ?_, ?_⟩,
    ⟨?_, ?_, ?_, ?_, ?_, ?_, ?_, ?_⟩, ⟨?_, ?_, ?_, ?_, ?_, ?_, ?_, ?_⟩⟩ <;> rfl

/-! ## Rendering leaves the messages as they were -/

theorem range_set_loop {α β : Type} (f : α → β) (d : α) (d₂ : β) (xs : List α) (k : Nat)
    (hk : k ≤ xs.length) :
    (List.range k).foldl (fun acc i => acc.set i (f (xs.getD i d)))
      (List.replicate xs.length d₂)
      = (xs.take k).map f ++ List.replicate (xs.length - k) d₂ := by
  induction k with
  | zero => simp
  | succ k ih =>
    have hlt : k < xs.length := hk
    rw [List.range_succ, List.foldl_append, ih (Nat.le_of_lt hlt)]
    have hrep : List.replicate (xs.length - k) d₂
        = d₂ :: List.replicate (xs.length - (k + 1)) d₂ := by
      rw [← List.replicate_succ]; congr 1; omega
    have hlen : ((xs.take k).map f).length = k := by simp [Nat.le_of_lt hlt]
    simp only [List.foldl_cons, List.foldl_nil]
    rw [hrep, List.set_append_right _ _ (by rw [hlen]), hlen, Nat.sub_self, List.set_cons_zero]
    have htake : xs.take (k + 1) = xs.take k ++ [xs.getD k d] := by
      rw [List.take_succ]
      simp [List.getD, List.getElem?_eq_getElem hlt]
    rw [htake]
    simp

theorem range_set_loop_full {α β : Type} (f : α → β) (d : α) (d₂ : β) (xs : List α) :
    (List.range xs.length).foldl (fun acc i => acc.set i (f (xs.getD i d)))
      (List.replicate xs.length d₂) = xs.map f := by
  simpa using range_set_loop f d d₂ xs xs.length (Nat.le_refl _)

theorem store_loop (m : Mem) (e : ErrorAt) (he : e.Errors < m.next) (pts : List GoString)
    (l : List Nat) :
    l.foldl (fun (mem : Mem) i =>
        mem.store m.next i (bullet ((mem.arrays e.Errors).getD i [])))
      (Mem.mk (Function.update m.arrays m.next pts) (m.next + 1))
    = Mem.mk (Function.update m.arrays m.next
        (l.foldl (fun acc i => acc.set i (bullet ((m.arrays e.Errors).getD i []))) pts))
       (m.next + 1) := by
  have hne : e.Errors ≠ m.next := Nat.ne_of_lt he
  induction l generalizing pts with
  | nil => rfl
  | cons i l ih =>
    simp only [List.foldl_cons]
    rw [← ih]
    congr 1
    simp [Mem.store, Function.update_noteq hne]

theorem ErrorAt_Error_eq (m : Mem) (e : ErrorAt) (he : e.Errors < m.next) :
    e.Error m =
      (Error.Error ⟨m.arrays e.Errors⟩,
       ⟨Function.update m.arrays m.next
          (sort_Strings ((m.arrays e.Errors).map bullet)), m.next + 1⟩) := by
  have hne : e.Errors ≠ m.next := Nat.ne_of_lt he
  simp only [ErrorAt.Error, Mem.make, store_loop m e he,
    range_set_loop_full bullet [] [] (m.arrays e.Errors), Mem.sortStrings,
    Function.update_same, Function.update_idem, Function.update_noteq hne, Error.Error,
    fillPoints_eq]

theorem ErrorAt_WrappedErrors_eq (m : Mem) (e : ErrorAt) :
    ErrorAt.WrappedErrors m (some e)
      = (Error.WrappedErrors (some ⟨m.arrays e.Errors⟩), m) := by
  simp only [ErrorAt.WrappedErrors, WrappedErrors_eq,
    range_set_loop_full (fun msg => some (errors_New msg)) [] none (m.arrays e.Errors)]

/-- C10: `Error` and `WrappedErrors` leave `e.Errors` as it was. `Error` writes
only to the array it allocates: every array that existed keeps its elements
in the same order, so `e.Errors` does; the string returned is the rendering
of the messages; `WrappedErrors` changes no array; and `WrappedErrors` called
after `Error` returns what it returns before, the messages in their original
order. -/
theorem Error_calls_frame (m : Mem) (e : ErrorAt) (he : e.Errors < m.next) :
    (∀ a, a < m.next → (e.Error m).2.arrays a = m.arrays a) ∧
    (e.Error m).2.arrays e.Errors = m.arrays e.Errors ∧
    (e.Error m).1 = Error.Error ⟨m.arrays e.Errors⟩ ∧
    (ErrorAt.WrappedErrors m (some e)).2 = m ∧
    (ErrorAt.WrappedErrors (e.Error m).2 (some e)).1 = (ErrorAt.WrappedErrors m (some e)).1 ∧
    (ErrorAt.WrappedErrors (e.Error m).2 (some e)).1
      = some ((m.arrays e.Errors).map (fun msg => some (errors_New msg))) := by
  have hframe : ∀ a, a < m.next → (e.Error m).2.arrays a = m.arrays a := by
    intro a ha
    rw [ErrorAt_Error_eq m e he]
    exact Function.update_noteq (Nat.ne_of_lt ha) _ _
  have hsame := hframe e.Errors he
  refine ⟨hframe, hsame, ?_, ?_, ?_, ?_⟩
  · rw [ErrorAt_Error_eq m e he]
  · rw [ErrorAt_WrappedErrors_eq]
  · rw [ErrorAt_WrappedErrors_eq, ErrorAt_WrappedErrors_eq, hsame]
  · rw [ErrorAt_WrappedErrors_eq, hsame, WrappedErrors_eq]

theorem Error_calls_frame_witness :
    (ErrorAt.mk 0).Errors < sampleMem.next ∧
    ((ErrorAt.mk 0).Error sampleMem).1 = str "2 error(s) decoding:\n\n* a\n* b" ∧
    ((ErrorAt.mk 0).Error sampleMem).2.arrays 0 = [str "b", str "a"] ∧
    ((ErrorAt.mk 0).Error sampleMem).2.arrays 1 = [str "* a", str "* b"] ∧
    ((ErrorAt.mk 0).Error sampleMem).2.arrays (ErrorAt.mk 0).Errors
      = sampleMem.arrays (ErrorAt.mk 0).Errors :=
  ⟨by decide, by decide, by decide, by decide,
    (Error_calls_frame sampleMem (ErrorAt.mk 0) (by decide)).2.1⟩

/-! ## fileExists -/

theorem fileExists_cases (stat : GoString → StatOutcome) (filename : GoString) :
    fileExists stat filename =
      match stat filename with
      | StatOutcome.found i => some (!i.isDir)
      | StatOutcome.failed StatError.notExist => some false
      | StatOutcome.failed _ => none := by
  unfold fileExists
  cases h : stat filename with
  | found i => simp [StatOutcome.info, StatOutcome.err, os_IsNotExist]
  | failed e => cases e <;> simp [StatOutcome.info, StatOutcome.err, os_IsNotExist]

/-- C13: when `os.Stat` fails with an error other than "does not exist" (a name
with a NUL byte, a path out of reach), `fileExists` does not return false: it
calls `IsDir` on the nil `info` and panics. On the other outcomes it returns:
false for a missing file and for a directory, true for a file. -/
theorem fileExists_stat_error_panics :
    fileExists sampleStat [97, 0, 98] = none ∧
    fileExists sampleStat (str "secret") = none ∧
    fileExists sampleStat (str "missing") = some false ∧
    fileExists sampleStat (str "etc") = some false ∧
    fileExists sampleStat (str "config.yaml") = some true :=
  ⟨by decide, by decide, by decide, by decide, by decide⟩

/-! ## isZero on structs -/

/-- C14 as worded fails on a struct that was read from an unexported field:
it is a struct, not a time value, and `isZero` does not return false on it,
`v.Interface()` panics. -/
theorem isZero_struct_unexported_panics :
    (Value.mk (GoValue.struct [GoValue.int 0]) true).Kind = Kind.Struct ∧
    GoValue.asTime (GoValue.struct [GoValue.int 0]) = none ∧
    isZero (fun bits => bits == 0) ⟨GoValue.struct [GoValue.int 0], true⟩ = none ∧
    isZero (fun bits => bits == 0) ⟨GoValue.struct [GoValue.int 0], true⟩ ≠ some false :=
  ⟨rfl, rfl, rfl, by decide⟩

/-- C14, amended: `isZero` never reports a struct that is not a time value as
zero. Of every such struct that was not read from an unexported field it
returns false, also of one whose fields are all zero (which the library's
`IsZero` calls zero); of a time value that was not read from an unexported
field it returns true exactly at the zero instant. -/
theorem isZero_struct (floatZero : Nat → Bool) :
    (∀ v : Value, v.Kind = Kind.Struct → v.val.asTime = none →
      isZero floatZero v ≠ some true) ∧
    (∀ v : Value, v.Kind = Kind.Struct → v.val.asTime = none → v.flagRO = false →
      isZero floatZero v = some false) ∧
    (∀ fs : List GoValue, GoValue.allZero floatZero fs = some true →
      Value.IsZero floatZero ⟨GoValue.struct fs, false⟩ = some true ∧
      isZero floatZero ⟨GoValue.struct fs, false⟩ = some false) ∧
    isZero floatZero ⟨GoValue.struct [GoValue.int 0, GoValue.string [], GoValue.bool false,
      GoValue.struct [GoValue.uint 0]], false⟩ = some false ∧
    GoValue.allZero floatZero [GoValue.int 0, GoValue.string [], GoValue.bool false,
      GoValue.struct [GoValue.uint 0]] = some true ∧
    (∀ (sec : Int) (nsec : Nat) (loc : Bool),
      isZero floatZero ⟨GoValue.time sec nsec loc, false⟩ = some true
        ↔ sec = 0 ∧ nsec = 0) := by
  refine ⟨?_, ?_, ?_, rfl, ?_, ?_⟩
  · intro v hk ht
    obtain ⟨x, ro⟩ := v
    cases ro <;> cases x <;>
      simp_all [isZero, Value.Kind, GoValue.Kind, Value.Interface, GoValue.asTime]
  · intro v hk ht hro
    obtain ⟨x, ro⟩ := v
    simp only at hro
    subst hro
    cases x <;> simp_all [isZero, Value.Kind, GoValue.Kind, Value.Interface, GoValue.asTime]
  · intro fs h
    exact ⟨by simpa [Value.IsZero, GoValue.IsZero] using h, rfl⟩
  · simp [GoValue.allZero, GoValue.IsZero]
  · intro sec nsec loc
    simp [isZero, Value.Kind, GoValue.Kind, Value.Interface, GoValue.asTime, Time_IsZero]

theorem isZero_struct_witness :
    (Value.mk (GoValue.struct [GoValue.int 0, GoValue.string []]) false).Kind = Kind.Struct ∧
    GoValue.asTime (GoValue.struct [GoValue.int 0, GoValue.string []]) = none ∧
    GoValue.allZero (fun bits => bits == 0) [GoValue.int 0, GoValue.string []] = some true ∧
    isZero (fun bits => bits == 0) ⟨GoValue.struct [GoValue.int 0, GoValue.string []], false⟩
      = some false :=
  ⟨rfl, rfl, by decide,
    (isZero_struct (fun bits => bits == 0)).2.1
      ⟨GoValue.struct [GoValue.int 0, GoValue.string []], false⟩ rfl rfl rfl⟩

/-! ## stringSlice is never empty -/

/-- C15: `stringSlice` returns at least one element for every string; for the
empty string and for `"[]"` it returns the one-element sequence holding the
empty string. -/
theorem stringSlice_nonempty :
    (∀ s : GoString, 1 ≤ (stringSlice s).length ∧ stringSlice s ≠ []) ∧
    stringSlice (str "") = [str ""] ∧
    stringSlice (str "[]") = [str ""] ∧
    (stringSlice (str "")).length = 1 := by
  refine ⟨fun s => ?_, by decide, by decide, by decide⟩
  have h := (stringSlice_eq s) ▸ Split_ne_nil (unbracket s) 44
  exact ⟨List.length_pos.2 h, h⟩

/-! ## appendErrors -/

/-- C16: `appendErrors` of a non-nil `*Error` appends all its messages, in
order; of any other non-nil error it appends the one message `err.Error()`;
in both cases what was collected before is a prefix of the result. -/
theorem appendErrors_spec (xs : List GoString) :
    (∀ e : Error, appendErrors xs (ErrorArg.nonNil (GoError.aggregate e))
      = some (xs ++ e.Errors)) ∧
    (∀ err : GoError, (∀ e : Error, err ≠ GoError.aggregate e) →
      appendErrors xs (ErrorArg.nonNil err) = some (xs ++ [err.Error])) ∧
    (∀ err : GoError, ∃ r, appendErrors xs (ErrorArg.nonNil err) = some r ∧ xs <+: r) := by
  refine ⟨fun e => rfl, ?_, ?_⟩
  · intro err h
    cases err with
    | errorString s => rfl
    | aggregate e => exact absurd rfl (h e)
  · intro err
    cases err with
    | errorString s => exact ⟨_, rfl, List.prefix_append _ _⟩
    | aggregate e => exact ⟨_, rfl, List.prefix_append _ _⟩

theorem appendErrors_spec_witness :
    (∀ e : Error, GoError.errorString (str "file not found") ≠ GoError.aggregate e) ∧
    appendErrors [str "a"] (ErrorArg.nonNil (GoError.errorString (str "file not found")))
      = some ([str "a"] ++ [(GoError.errorString (str "file not found")).Error]) ∧
    appendErrors [str "a"] (ErrorArg.nonNil (GoError.aggregate ⟨[str "c", str "b"]⟩))
      = some [str "a", str "c", str "b"] :=
  ⟨fun _ h => GoError.noConfusion h,
    (appendErrors_spec [str "a"]).2.1 (GoError.errorString (str "file not found"))
      (fun _ h => GoError.noConfusion h),
    by decide⟩

/-! ## The environment variable of a field -/

theorem upperByte_not_lower (b : Nat) : ¬ (97 ≤ upperByte b ∧ upperByte b ≤ 122) := by
  unfold upperByte
  split_ifs <;> omega

theorem upperByte_idem (b : Nat) : upperByte (upperByte b) = upperByte b := by
  have h := upperByte_not_lower b
  generalize upperByte b = c at h
  simp [upperByte, h]

theorem ToUpper_idem (s : GoString) : ToUpper (ToUpper s) = ToUpper s := by
  simp [ToUpper, upperByte_idem]

theorem ToUpper_eq_nil (s : GoString) : ToUpper s = [] ↔ s = [] := by
  simp [ToUpper]

theorem ToUpper_not_lower (s : GoString) : ∀ b ∈ ToUpper s, ¬ (97 ≤ b ∧ b ≤ 122) := by
  intro b hb
  obtain ⟨c, _, rfl⟩ := List.mem_map.1 hb
  exact upperByte_not_lower c

theorem mem_intercalate (sep : GoString) (xs : List GoString) (b : Nat)
    (hb : b ∈ List.intercalate sep xs) : b ∈ sep ∨ ∃ x ∈ xs, b ∈ x := by
  induction xs with
  | nil => simp [List.intercalate] at hb
  | cons x xs ih =>
    cases xs with
    | nil =>
      have : b ∈ x := by simpa [List.intercalate] using hb
      exact Or.inr ⟨x, List.mem_cons_self _ _, this⟩
    | cons y ys =>
      have hcons : List.intercalate sep (x :: y :: ys)
          = x ++ sep ++ List.intercalate sep (y :: ys) := by
        simp [List.intercalate]
      rw [hcons] at hb
      rcases List.mem_append.1 hb with h | h
      · rcases List.mem_append.1 h with h | h
        · exact Or.inr ⟨x, List.mem_cons_self _ _, h⟩
        · exact Or.inl h
      · rcases ih h with h | ⟨z, hz, hbz⟩
        · exact Or.inl h
        · exact Or.inr ⟨z, List.mem_cons_of_mem _ hz, hbz⟩

theorem envKey_eq (pre : GoString) (path : List GoString) :
    envKey pre path = List.intercalate (str "_")
      ((if pre = [] then [] else [ToUpper pre]) ++ path.map ToUpper) := by
  rw [envKey, Join_eq_intercalate]

theorem envKey_ToUpper (pre : GoString) (path : List GoString) :
    envKey (ToUpper pre) path = envKey pre path := by
  simp only [envKey, ToUpper_idem, ToUpper_eq_nil]

theorem envKey_not_lower (pre : GoString) (path : List GoString) :
    ∀ b ∈ envKey pre path, ¬ (97 ≤ b ∧ b ≤ 122) := by
  intro b hb
  rw [envKey_eq] at hb
  rcases mem_intercalate _ _ _ hb with h | ⟨x, hx, hbx⟩
  · have : b = 95 := by
      have h95 : str "_" = [95] := by decide
      simpa [h95] using h
    omega
  · rcases List.mem_append.1 hx with h | h
    · by_cases hp : pre = []
      · simp [hp] at h
      · simp only [hp, if_false, List.mem_singleton] at h
        subst h
        exact ToUpper_not_lower pre b hbx
    · obtain ⟨y, _, rfl⟩ := List.mem_map.1 h
      exact ToUpper_not_lower y b hbx

theorem envVarConsulted_UseEnv {ρ : Type} (f : conf ρ) (p : GoString) (path : List FieldSeg) :
    envVarConsulted (UseEnv p f) path = some (envKey p (path.map FieldSeg.canonical)) := rfl

theorem envLookup_UseEnv {ρ : Type} (f : conf ρ) (p : GoString)
    (env : GoString → Option GoString) (path : List FieldSeg) :
    envLookup (UseEnv p f) env path = env (envKey p (path.map FieldSeg.canonical)) := rfl

/-- C11: after `UseEnv(p)` the variable consulted for a field is `p` uppercased
(left out when empty) and every segment of the path uppercased, joined by
underscores, a segment being the alias of the field if it has one and its
identifier otherwise. The case of `p` does not matter, the name has no
lower-case letter, and it is looked up as it is. Under `myapp`, `Server.Host`
gives `MYAPP_SERVER_HOST` and `LogLevel` with alias `log_level` gives
`MYAPP_LOG_LEVEL`. -/
theorem envVarConsulted_spec {ρ : Type} (f : conf ρ) (p : GoString) (path : List FieldSeg) :
    envVarConsulted (UseEnv p f) path = some (List.intercalate (str "_")
      ((if p = [] then [] else [ToUpper p])
        ++ path.map (fun s => ToUpper (s.tagAlias.getD s.name)))) ∧
    envVarConsulted (UseEnv (ToUpper p) f) path = envVarConsulted (UseEnv p f) path ∧
    (∀ key, envVarConsulted (UseEnv p f) path = some key →
      ∀ b ∈ key, ¬ (97 ≤ b ∧ b ≤ 122)) ∧
    (∀ env : GoString → Option GoString, ∃ key,
      envVarConsulted (UseEnv p f) path = some key ∧
      envLookup (UseEnv p f) env path = env key) ∧
    envVarConsulted (UseEnv (str "myapp") f) pathServerHost = some (str "MYAPP_SERVER_HOST") ∧
    envVarConsulted (UseEnv (str "myapp") f) pathLogLevel = some (str "MYAPP_LOG_LEVEL") ∧
    envVarConsulted (UseEnv (str "MyApp") f) pathLogLevel = some (str "MYAPP_LOG_LEVEL") ∧
    envVarConsulted (UseEnv (str "") f) pathServerHost = some (str "SERVER_HOST") := by
  refine ⟨?_, ?_, ?_, ?_, ?_, ?_, ?_, ?_⟩
  · rw [envVarConsulted_UseEnv, envKey_eq, List.map_map]
    congr 3
    apply List.map_congr_left
    intro s _
    cases s with
    | mk name tagAlias => cases tagAlias <;> rfl
  · rw [envVarConsulted_UseEnv, envVarConsulted_UseEnv, envKey_ToUpper]
  · intro key hkey
    rw [envVarConsulted_UseEnv] at hkey
    cases hkey
    exact envKey_not_lower _ _
  · intro env
    exact ⟨_, envVarConsulted_UseEnv f p path, envLookup_UseEnv f p env path⟩
  · rw [envVarConsulted_UseEnv]; decide
  · rw [envVarConsulted_UseEnv]; decide
  · rw [envVarConsulted_UseEnv]; decide
  · rw [envVarConsulted_UseEnv]; decide

theorem envVarConsulted_spec_witness :
    envVarConsulted (UseEnv (str "myapp") sampleConf) pathServerHost
      = some (str "MYAPP_SERVER_HOST") ∧
    ∀ b ∈ str "MYAPP_SERVER_HOST", ¬ (97 ≤ b ∧ b ≤ 122) :=
  ⟨by decide,
    (envVarConsulted_spec sampleConf (str "myapp") pathServerHost).2.2.1
      (str "MYAPP_SERVER_HOST") (by decide)⟩

/-! ## The environment value wins over the file value -/

theorem resolveField_env {τ ν : Type} (zero : ν → Bool) (coerce : RawValue τ → Option ν)
    (current : ν) (dflt : Option (RawValue τ)) (rf re : RawValue τ) (a b : ν)
    (hdflt : ∀ d, dflt = some d → ∃ c, coerce d = some c)
    (hfile : coerce rf = some a) (henv : coerce re = some b) :
    resolveField zero coerce current dflt (some rf) (some re) = some b ∧
    resolveField zero coerce current dflt (some rf) none = some a := by
  cases dflt with
  | none => simp [resolveField, hfile, henv]
  | some d =>
    obtain ⟨c, hc⟩ := hdflt d rfl
    by_cases hz : zero current = true <;> simp [resolveField, hfile, henv, hc, hz]

/-- C12: for a field present in the file (raw value `rf`) and in the
environment (the variable of the field is set, to `re`), both values and the
default, if any, being coercible, the value after `Load` under `UseEnv(p)` is
the environment value; without the environment source it is the file value. -/
theorem loadField_env_over_file {ρ τ ν : Type} (f : conf ρ) (p : GoString)
    (zero : ν → Bool) (coerce : RawValue τ → Option ν) (env : GoString → Option GoString)
    (path : List FieldSeg) (current : ν) (dflt : Option GoString)
    (rf : RawValue τ) (re : GoString) (a b : ν)
    (hdflt : ∀ d, dflt = some d → ∃ c, coerce (RawValue.text d) = some c)
    (hfile : coerce rf = some a)
    (hset : env (envKey p (path.map FieldSeg.canonical)) = some re)
    (henv : coerce (RawValue.text re) = some b) :
    loadField (UseEnv p f) zero coerce env path current dflt (some rf) = some b ∧
    (f.useEnv = false →
      loadField f zero coerce env path current dflt (some rf) = some a) := by
  have hd : ∀ d, dflt.map RawValue.text = some d → ∃ c, coerce d = some c := by
    intro d hd
    cases dflt with
    | none => simp at hd
    | some x =>
      simp only [Option.map_some', Option.some.injEq] at hd
      subst hd
      exact hdflt x rfl
  have h := resolveField_env zero coerce current (dflt.map RawValue.text) rf
    (RawValue.text re) a b hd hfile henv
  constructor
  · simp only [loadField, envLookup_UseEnv, hset, Option.map_some']
    exact h.1
  · intro hoff
    simp only [loadField, envLookup, envVarConsulted, hoff, Bool.false_eq_true, if_false,
      Option.map_none']
    exact h.2

theorem loadField_env_over_file_witness :
    (∀ d, some (str "localhost") = some d →
      ∃ c, coerceString (RawValue.text d) = some c) ∧
    coerceString (RawValue.tree (str "file.example")) = some (str "file.example") ∧
    sampleEnv (envKey (str "myapp") (pathServerHost.map FieldSeg.canonical))
      = some (str "env.example") ∧
    coerceString (RawValue.text (str "env.example")) = some (str "env.example") ∧
    loadField (UseEnv (str "myapp") sampleConf) (fun v => v == []) coerceString sampleEnv
      pathServerHost [] (some (str "localhost")) (some (RawValue.tree (str "file.example")))
      = some (str "env.example") ∧
    loadField sampleConf (fun v => v == []) coerceString sampleEnv
      pathServerHost [] (some (str "localhost")) (some (RawValue.tree (str "file.example")))
      = some (str "file.example") :=
  ⟨fun d _ => ⟨d, rfl⟩, rfl, by decide, rfl,
    (loadField_env_over_file sampleConf (str "myapp") (fun v => v == []) coerceString
      sampleEnv pathServerHost [] (some (str "localhost"))
      (RawValue.tree (str "file.example")) (str "env.example")
      (str "file.example") (str "env.example")
      (fun d _ => ⟨d, rfl⟩) rfl (by decide) rfl).1,
    by decide⟩

end Conf
